import Mathlib

/-!
Shallow embedding of the reference-resolution and memory-learning core of the
Glyph repository, translated from `src/agent_memory.py`, `src/agent_context.py`
and `src/agent_tools.py`.

Conventions used throughout:
* Python strings are Lean `String`s; character-level work is done on `String.data`.
* Python `dict`s (which iterate in insertion order and update keys in place)
  are association lists with an in-place `dictInsert`.
* Machine-independent fractions (`difflib` ratios, confidence scores) are `ℚ`.
* Wall-clock timestamps (`datetime.now().isoformat()`) are threaded through as
  explicit `String` parameters.
* ASCII is assumed for the character classes used by the Python code
  (`str.lower`, `str.strip`, `\w`, `[a-z]`); all concrete inputs in this file
  are ASCII.
-/

namespace Glyph

/-! ### Python string primitives -/

/-- Default whitespace recognised by Python `str.strip` (ASCII part). -/
def isPySpace (c : Char) : Bool :=
  decide (c.toNat = 32 ∨ c.toNat = 9 ∨ c.toNat = 10 ∨ c.toNat = 13 ∨
    c.toNat = 11 ∨ c.toNat = 12)

/-- Python `str.lower` on one character (ASCII range, as in CPython for ASCII). -/
def pyCharLower (c : Char) : Char :=
  if 65 ≤ c.toNat ∧ c.toNat ≤ 90 then Char.ofNat (c.toNat + 32) else c

/-- Python `s.lower()`. -/
def pyLower (s : String) : String := ⟨s.data.map pyCharLower⟩

def pyStripList (l : List Char) : List Char :=
  ((l.dropWhile isPySpace).reverse.dropWhile isPySpace).reverse

/-- Python `s.strip()`. -/
def pyStrip (s : String) : String := ⟨pyStripList s.data⟩

/-- Python `term.lower().strip()`, the normalisation applied to user terms in
`agent_memory.py` and `agent_context.py`. -/
def normalizeTerm (s : String) : String := pyStrip (pyLower s)

/-- Python substring containment `sub in s`, on character lists. -/
def isSub (sub s : List Char) : Bool :=
  match s with
  | [] => sub.isPrefixOf []
  | _ :: rest => sub.isPrefixOf s || isSub sub rest

/-- Python `sub in s` on strings. -/
def pyIn (sub s : String) : Bool := isSub sub.data s.data

/-- Python `s.endswith(suffix)`. -/
def pyEndsWith (suffix s : String) : Bool := suffix.data.isSuffixOf s.data

/-- Python truthiness of an optional string: `None` and `""` are falsy. -/
def pyTruthy : Option String → Bool
  | none => false
  | some s => !(s == "")

/-- Python `a or b` on optional strings: returns `a` when truthy, else `b`
(so the last operand is returned whatever its truthiness). -/
def pyOr (a b : Option String) : Option String := if pyTruthy a then a else b

/-! ### difflib.SequenceMatcher

Embedding of `difflib.SequenceMatcher(None, a, b).ratio()` as used by
`_fuzzy_match_references` and `_fallback_simple_matching`.  There is no junk
predicate (`isjunk=None`), so the junk set is empty; CPython's autojunk rule
(elements occurring in more than `len(b)//100 + 1` positions of a `b` of
length `≥ 200` are dropped from the index `b2j`) is reproduced below. -/

/-- Characters dropped from the `b2j` index by difflib's autojunk heuristic. -/
def popularChar (b : List Char) (c : Char) : Bool :=
  decide (200 ≤ b.length) &&
    decide (b.length / 100 + 1 < (b.filter (fun x => x == c)).length)

/-- Positions `j ∈ [blo, bhi)` with `b[j] = c`, ascending — difflib's
`b2j.get(a[i], [])` restricted to the window, skipping popular characters. -/
def b2jIndices (b : List Char) (blo bhi : Nat) (c : Char) : List Nat :=
  if popularChar b c then []
  else (List.range b.length).filter
    (fun j => decide (blo ≤ j) && decide (j < bhi) && (b.get? j == some c))

def lookupJ (m : List (Nat × Nat)) (j : Nat) : Nat := (List.lookup j m).getD 0

/-- One row of `find_longest_match`'s `j2len` dynamic programme: fold over the
candidate positions `j` for the current `a[i]`, building the new `j2len` and
updating the best block on a strictly longer run (so the earliest maximal run
is kept, as in difflib). -/
def flmRow (j2len : List (Nat × Nat)) (i : Nat) :
    List Nat → List (Nat × Nat) → Nat × Nat × Nat → List (Nat × Nat) × (Nat × Nat × Nat)
  | [], acc, best => (acc, best)
  | j :: js, acc, best =>
      let k := (if j = 0 then 0 else lookupJ j2len (j - 1)) + 1
      let best' := if best.2.2 < k then (i + 1 - k, j + 1 - k, k) else best
      flmRow j2len i js ((j, k) :: acc) best'

/-- The outer loop of `find_longest_match` over `i ∈ [alo, ahi)`.  (The
`none` case of `a.get? i` is unreachable on the in-range calls made below;
it contributes an empty row.) -/
def flmRows (a b : List Char) (blo bhi : Nat) :
    List Nat → List (Nat × Nat) → Nat × Nat × Nat → Nat × Nat × Nat
  | [], _, best => best
  | i :: is, j2len, best =>
      match a.get? i with
      | none => flmRows a b blo bhi is [] best
      | some c =>
          let s := flmRow j2len i (b2jIndices b blo bhi c) [] best
          flmRows a b blo bhi is s.1 s.2

/-- difflib's leftward extension of the best block over equal characters
(the junk set is empty, so the junk-only guard is vacuous). The `isSome`
conjunct restates the in-range invariant of the reachable calls. -/
def extendLeft (a b : List Char) (alo blo : Nat) (besti bestj bestk : Nat) :
    Nat × Nat × Nat :=
  if h : alo < besti ∧ blo < bestj ∧ (a.get? (besti - 1)).isSome ∧
      a.get? (besti - 1) = b.get? (bestj - 1) then
    extendLeft a b alo blo (besti - 1) (bestj - 1) (bestk + 1)
  else (besti, bestj, bestk)
termination_by besti
decreasing_by omega

/-- difflib's rightward extension of the best block over equal characters. -/
def extendRight (a b : List Char) (ahi bhi besti bestj : Nat) (bestk : Nat) : Nat :=
  if h : besti + bestk < ahi ∧ bestj + bestk < bhi ∧
      (a.get? (besti + bestk)).isSome ∧
      a.get? (besti + bestk) = b.get? (bestj + bestk) then
    extendRight a b ahi bhi besti bestj (bestk + 1)
  else bestk
termination_by ahi - bestk
decreasing_by omega

/-- difflib `SequenceMatcher.find_longest_match(alo, ahi, blo, bhi)`. -/
def findLongestMatch (a b : List Char) (alo ahi blo bhi : Nat) : Nat × Nat × Nat :=
  let best := flmRows a b blo bhi (List.range' alo (ahi - alo)) [] (alo, blo, 0)
  let ext := extendLeft a b alo blo best.1 best.2.1 best.2.2
  (ext.1, ext.2.1, extendRight a b ahi bhi ext.1 ext.2.1 ext.2.2)

/-- Total size of the matching blocks found by `get_matching_blocks`'s
divide-and-conquer recursion (the only quantity `ratio()` consumes; the
adjacent-block merge difflib performs does not change the sum).  The bound
checks in the guard restate the matcher's invariants and always hold on
reachable calls; they make the recursion well founded. -/
def totalMatchSize (a b : List Char) (alo ahi blo bhi : Nat) : Nat :=
  match findLongestMatch a b alo ahi blo bhi with
  | (i, j, k) =>
    if h : 0 < k ∧ alo ≤ i ∧ i + k ≤ ahi ∧ blo ≤ j ∧ j + k ≤ bhi then
      totalMatchSize a b alo i blo j + k +
        totalMatchSize a b (i + k) ahi (j + k) bhi
    else k
termination_by (ahi - alo) + (bhi - blo)
decreasing_by
  · omega
  · omega

/-- difflib `SequenceMatcher(None, a, b).ratio()`: `2*M / (len(a)+len(b))`,
and `1.0` when both sequences are empty (`_calculate_ratio`). -/
def seqSimilarity (a b : List Char) : ℚ :=
  if a.length + b.length = 0 then 1
  else 2 * (totalMatchSize a b 0 a.length 0 b.length : ℚ) /
    ((a.length : ℚ) + (b.length : ℚ))

/-- The ratio on strings. -/
def strSimilarity (a b : String) : ℚ := seqSimilarity a.data b.data

theorem seqSimilarity_nonneg (a b : List Char) : 0 ≤ seqSimilarity a b := by
  unfold seqSimilarity
  split
  · norm_num
  · apply div_nonneg
    · positivity
    · positivity

theorem strSimilarity_nonneg (a b : String) : 0 ≤ strSimilarity a b :=
  seqSimilarity_nonneg a.data b.data

/-! ### Persistent memory store (`src/agent_memory.py`, class `AgentMemory`) -/

/-- Python dataclass `NoteReference`. -/
structure NoteReference where
  user_term : String
  resolved_path : String
  confidence : ℚ
  first_used : String
  last_used : String
  usage_count : Nat
  context : String
deriving DecidableEq

/-- Python dataclass `EntityReference`. -/
structure EntityReference where
  name : String
  type : String
  related_notes : List String
  first_mentioned : String
  last_mentioned : String
  context : String
deriving DecidableEq

/-- In-memory state of `AgentMemory`.  Python dicts iterate in insertion
order and update existing keys in place, hence association lists. -/
structure AgentMemory where
  note_references : List (String × List NoteReference)
  user_aliases : List (String × String)
  entities : List (String × EntityReference)
  conversation_patterns : List (String × List String)
  user_preferences : List (String × String)
deriving DecidableEq

/-- A freshly constructed `AgentMemory` with no persisted files. -/
def emptyMemory : AgentMemory := ⟨[], [], [], [], []⟩

/-- Insertion-ordered dict update: existing keys keep their position, new
keys are appended — CPython dict assignment. -/
def dictInsert {β : Type} (l : List (String × β)) (k : String) (v : β) :
    List (String × β) :=
  match l with
  | [] => [(k, v)]
  | (k', v') :: rest => if k' = k then (k, v) :: rest else (k', v') :: dictInsert rest k v

/-- The in-place update of an existing `NoteReference` in
`register_note_reference` (bump `usage_count`, refresh `last_used` and
`context`). -/
def bumpRef (ts ctx : String) (r : NoteReference) : NoteReference :=
  { r with last_used := ts, usage_count := r.usage_count + 1, context := ctx }

/-- Scan of `self.note_references[resolved_path]` for the first entry whose
lowered `user_term` equals the cleaned term; `some` of the updated list when
found, `none` otherwise. -/
def updateRefs (t' ts ctx : String) : List NoteReference → Option (List NoteReference)
  | [] => none
  | r :: rs =>
    if pyLower r.user_term = t' then some (bumpRef ts ctx r :: rs)
    else match updateRefs t' ts ctx rs with
      | some rs' => some (r :: rs')
      | none => none

/-- Python `AgentMemory.register_note_reference(user_term, resolved_path, context)`.
`ts` stands for `datetime.now().isoformat()`. -/
def registerNoteReference (m : AgentMemory) (user_term resolved_path ctx ts : String) :
    AgentMemory :=
  let t' := normalizeTerm user_term
  let refs := (List.lookup resolved_path m.note_references).getD []
  let refs' := match updateRefs t' ts ctx refs with
    | some rs => rs
    | none => refs ++ [⟨t', resolved_path, 1, ts, ts, 1, ctx⟩]
  { m with
    user_aliases := dictInsert m.user_aliases t' resolved_path
    note_references := dictInsert m.note_references resolved_path refs' }

/-- The score `_fuzzy_match_references` computes for one stored alias:
`difflib` ratio, raised to at least `0.9` when either string contains the
other. -/
def fuzzyScore (u als : String) : ℚ :=
  let s := strSimilarity u als
  if pyIn u als || pyIn als u then max s 0.9 else s

/-- The best-match fold of `_fuzzy_match_references` over `user_aliases`
(in dict order), keeping a strictly better score that reaches the `0.8`
threshold. -/
def fuzzyBest (u : String) : List (String × String) → Option String × ℚ → Option String × ℚ
  | [], best => best
  | (als, path) :: rest, best =>
    let score := fuzzyScore u als
    fuzzyBest u rest (if best.2 < score ∧ 0.8 ≤ score then (some path, score) else best)

/-- Python `AgentMemory._fuzzy_match_references(user_term)` (the argument is already
cleaned by the caller).  The final `if best_match:` makes a falsy (empty)
best match come out as `None`. -/
def fuzzyMatchReferences (m : AgentMemory) (u : String) : Option String :=
  let best := fuzzyBest u m.user_aliases (none, 0)
  if pyTruthy best.1 then best.1 else none

/-- Python `AgentMemory.resolve_note_reference(user_term)`: exact lookup of the
cleaned term in `user_aliases`, else fuzzy matching. -/
def resolveNoteReference (m : AgentMemory) (user_term : String) : Option String :=
  let t' := normalizeTerm user_term
  match List.lookup t' m.user_aliases with
  | some p => some p
  | none => fuzzyMatchReferences m t'

/-- First-occurrence deduplication; models `list(set(xs))` in
`register_entity` (CPython set iteration order is implementation-defined;
only the underlying set matters to the theorems below). -/
def dedupFirstAux (seen : List String) : List String → List String
  | [] => []
  | x :: xs => if x ∈ seen then dedupFirstAux seen xs else x :: dedupFirstAux (x :: seen) xs

/-- Python `AgentMemory.register_entity(name, entity_type, related_notes, context)`. -/
def registerEntity (m : AgentMemory) (name etype : String) (related : List String)
    (ctx ts : String) : AgentMemory :=
  let n := pyStrip name
  match List.lookup n m.entities with
  | some e =>
      let e' := { e with related_notes := dedupFirstAux [] (e.related_notes ++ related),
                         last_mentioned := ts, context := ctx }
      { m with entities := dictInsert m.entities n e' }
  | none =>
      { m with entities := dictInsert m.entities n ⟨n, etype, related, ts, ts, ctx⟩ }

/-! #### Pattern learning (`learn_user_pattern`)

Of the two regexes, `the\s+([a-z]+(?:\s+[a-z]+)*)\s+(?:I\s+(?:created|wrote|made))`
contains the literal uppercase `I` but is applied to `user_input.lower()`, so
it never matches and contributes nothing.  The remaining regex
`my\s+([a-z]+(?:\s+[a-z]+)*)` is scanned below exactly as `re.findall` does:
positions are tried left to right, a successful (greedy) match resumes the
scan at its end. -/

def isLowerAZ (c : Char) : Bool := decide (97 ≤ c.toNat ∧ c.toNat ≤ 122)

theorem dropWhile_length_le (p : Char → Bool) (l : List Char) :
    (l.dropWhile p).length ≤ l.length := by
  induction l with
  | nil => simp
  | cons c rest ih =>
    rw [List.dropWhile]
    split
    · exact le_trans ih (by simp)
    · simp

theorem takeWhile_add_dropWhile_length (p : Char → Bool) (l : List Char) :
    (l.takeWhile p).length + (l.dropWhile p).length = l.length := by
  induction l with
  | nil => simp
  | cons c rest ih =>
    rw [List.takeWhile, List.dropWhile]
    split
    · simpa [Nat.succ_add] using ih
    · simp

/-- Greedy `(?:\s+[a-z]+)*` continuation of the capture group. -/
def groupMore (acc : List Char) (l : List Char) : List Char × List Char :=
  if h : l.takeWhile isPySpace = [] ∨
      ((l.dropWhile isPySpace).takeWhile isLowerAZ) = [] then (acc, l)
  else
    groupMore (acc ++ l.takeWhile isPySpace ++ (l.dropWhile isPySpace).takeWhile isLowerAZ)
      ((l.dropWhile isPySpace).dropWhile isLowerAZ)
termination_by l.length
decreasing_by
  have h2 : ((l.dropWhile isPySpace).dropWhile isLowerAZ).length ≤
      (l.dropWhile isPySpace).length := dropWhile_length_le _ _
  have h3 : (l.takeWhile isPySpace).length + (l.dropWhile isPySpace).length = l.length :=
    takeWhile_add_dropWhile_length _ _
  have h4 : l.takeWhile isPySpace ≠ [] := fun e => h (Or.inl e)
  have h5 : 0 < (l.takeWhile isPySpace).length := List.length_pos.mpr h4
  omega

/-- Try `my\s+([a-z]+(?:\s+[a-z]+)*)` at the head of `l`; on success, the
captured group and the rest of the text after the match. -/
def matchMyAt (l : List Char) : Option (List Char × List Char) :=
  match l with
  | c1 :: c2 :: rest =>
    if c1 = 'm' ∧ c2 = 'y' then
      if rest.takeWhile isPySpace = [] ∨
          ((rest.dropWhile isPySpace).takeWhile isLowerAZ) = [] then none
      else some (groupMore ((rest.dropWhile isPySpace).takeWhile isLowerAZ)
        ((rest.dropWhile isPySpace).dropWhile isLowerAZ))
    else none
  | _ => none

theorem groupMore_rest_length_aux (n : Nat) :
    ∀ acc l : List Char, l.length ≤ n → (groupMore acc l).2.length ≤ l.length := by
  induction n with
  | zero =>
    intro acc l hl
    have hnil : l = [] := List.eq_nil_of_length_eq_zero (Nat.le_zero.mp hl)
    subst hnil
    unfold groupMore
    simp
  | succ n ih =>
    intro acc l hl
    unfold groupMore
    split
    · exact le_rfl
    · next h =>
      have h2 : ((l.dropWhile isPySpace).dropWhile isLowerAZ).length ≤
          (l.dropWhile isPySpace).length := dropWhile_length_le _ _
      have h3 : (l.takeWhile isPySpace).length + (l.dropWhile isPySpace).length = l.length :=
        takeWhile_add_dropWhile_length _ _
      have h4 : l.takeWhile isPySpace ≠ [] := fun e => h (Or.inl e)
      have h5 : 0 < (l.takeWhile isPySpace).length := List.length_pos.mpr h4
      exact le_trans (ih _ _ (by omega)) (by omega)

theorem groupMore_rest_length (acc l : List Char) :
    (groupMore acc l).2.length ≤ l.length :=
  groupMore_rest_length_aux l.length acc l le_rfl

theorem matchMyAt_rest_length (l g rest : List Char) :
    matchMyAt l = some (g, rest) → rest.length < l.length := by
  intro hm
  cases l with
  | nil => simp [matchMyAt] at hm
  | cons c1 t =>
    cases t with
    | nil => simp [matchMyAt] at hm
    | cons c2 r0 =>
      rw [matchMyAt] at hm
      split_ifs at hm
      have h1 : rest = (groupMore ((r0.dropWhile isPySpace).takeWhile isLowerAZ)
          ((r0.dropWhile isPySpace).dropWhile isLowerAZ)).2 := by
        have h0 := congrArg (fun o => (Option.map Prod.snd o).getD []) hm
        simpa using h0.symm
      have h2 : ((r0.dropWhile isPySpace).dropWhile isLowerAZ).length ≤
          (r0.dropWhile isPySpace).length := dropWhile_length_le _ _
      have h3 : (r0.dropWhile isPySpace).length ≤ r0.length := dropWhile_length_le _ _
      have h4 := groupMore_rest_length ((r0.dropWhile isPySpace).takeWhile isLowerAZ)
        ((r0.dropWhile isPySpace).dropWhile isLowerAZ)
      rw [← h1] at h4
      simp only [List.length_cons]
      omega

/-- The `re.findall` scan for `my\s+([a-z]+(?:\s+[a-z]+)*)`: try each
position left to right, resuming after the end of a successful match. -/
def scanMy (l : List Char) : List (List Char) :=
  match l with
  | [] => []
  | c :: rest =>
    match hm : matchMyAt (c :: rest) with
    | some (g, rest') => g :: scanMy rest'
    | none => scanMy rest
termination_by l.length
decreasing_by
  · exact matchMyAt_rest_length _ _ _ hm
  · simp

/-- The key `"user_refers_to_" + match.replace(' ', '_')`. -/
def patternKey (g : List Char) : String :=
  "user_refers_to_" ++ ⟨g.map (fun c => if c = ' ' then '_' else c)⟩

/-- Python `AgentMemory.learn_user_pattern(user_input, resolved_note)`. -/
def learnUserPattern (m : AgentMemory) (user_input resolved_note : String) : AgentMemory :=
  let gs := scanMy (pyLower user_input).data
  let pats := gs.foldl (fun (d : List (String × List String)) g =>
      let key := patternKey g
      dictInsert d key ((List.lookup key d).getD [] ++ [resolved_note])) m.conversation_patterns
  { m with conversation_patterns := pats }

/-! #### Persistence (`_save_memory` / `_load_memory`)

`_save_memory` serialises the five in-memory maps to
`<name>.json` with `open(file, 'w')` followed by `json.dump` — a direct
overwrite of each final file.  The trace model below records exactly which
file operations the save performs; `FileOp.renameFile` exists so that the
spec's claimed write-to-temp-then-rename discipline can be stated against
the trace. -/

/-- Serialised payload of one store file (the JSON text is abstracted to the
value it encodes). -/
inductive StoreContent
  | noteRefs (d : List (String × List NoteReference))
  | aliases (d : List (String × String))
  | ents (d : List (String × EntityReference))
  | pats (d : List (String × List String))
  | prefs (d : List (String × String))
deriving DecidableEq

/-- A primitive filesystem operation. -/
inductive FileOp
  | writeFile (name : String) (contents : StoreContent)
  | renameFile (src dst : String)
deriving DecidableEq

/-- The file operations performed by `AgentMemory._save_memory`, in order:
five direct overwrites, one per store file. -/
def saveMemoryOps (m : AgentMemory) : List FileOp :=
  [ FileOp.writeFile "note_references.json" (StoreContent.noteRefs m.note_references),
    FileOp.writeFile "user_aliases.json" (StoreContent.aliases m.user_aliases),
    FileOp.writeFile "entities.json" (StoreContent.ents m.entities),
    FileOp.writeFile "conversation_patterns.json" (StoreContent.pats m.conversation_patterns),
    FileOp.writeFile "user_preferences.json" (StoreContent.prefs m.user_preferences) ]

/-- A directory state: file name to content. -/
def Disk : Type := List (String × StoreContent)

def applyOp (d : Disk) : FileOp → Disk
  | FileOp.writeFile n c => dictInsert d n c
  | FileOp.renameFile s t =>
    match List.lookup s d with
    | some c => dictInsert (List.filter (fun kv => !(kv.1 == s)) d) t c
    | none => d

def applyOps (d : Disk) (ops : List FileOp) : Disk := ops.foldl applyOp d

/-- Python `AgentMemory._load_memory`: read each store file, defaulting to the empty
map when the file is missing (or holds the wrong shape). -/
def loadMemory (d : Disk) : AgentMemory where
  note_references :=
    match List.lookup "note_references.json" d with
    | some (StoreContent.noteRefs x) => x
    | _ => []
  user_aliases :=
    match List.lookup "user_aliases.json" d with
    | some (StoreContent.aliases x) => x
    | _ => []
  entities :=
    match List.lookup "entities.json" d with
    | some (StoreContent.ents x) => x
    | _ => []
  conversation_patterns :=
    match List.lookup "conversation_patterns.json" d with
    | some (StoreContent.pats x) => x
    | _ => []
  user_preferences :=
    match List.lookup "user_preferences.json" d with
    | some (StoreContent.prefs x) => x
    | _ => []

/-- Python `register_note_reference` together with the synchronous `_save_memory()`
it performs before returning: the new in-memory state and the file trace. -/
def registerNoteReferencePersist (m : AgentMemory) (t p ctx ts : String) :
    AgentMemory × List FileOp :=
  let m' := registerNoteReference m t p ctx ts
  (m', saveMemoryOps m')

/-- Python `register_entity` with its synchronous save. -/
def registerEntityPersist (m : AgentMemory) (n ty : String) (rel : List String)
    (ctx ts : String) : AgentMemory × List FileOp :=
  let m' := registerEntity m n ty rel ctx ts
  (m', saveMemoryOps m')

/-- Python `learn_user_pattern` with its synchronous save. -/
def learnUserPatternPersist (m : AgentMemory) (ui rn : String) :
    AgentMemory × List FileOp :=
  let m' := learnUserPattern m ui rn
  (m', saveMemoryOps m')

/-- Modelled from the spec: the write-to-temp-then-rename discipline the spec
asserts of every persisted file — each write targets a temporary name that a
later operation of the same trace renames onto a final file. -/
def atomicWriteDiscipline (ops : List FileOp) : Prop :=
  ∀ n c, FileOp.writeFile n c ∈ ops → ∃ dst, FileOp.renameFile n dst ∈ ops

/-! ### Conversation context (`src/agent_context.py`, class `ConversationContext`) -/

/-- The reference-resolution state of `ConversationContext` (the fields
`resolve_reference` and `update_focus` read and write).  `recent_operations`
is the `deque(maxlen=10)` of `(timestamp, operation, note)` records. -/
structure ConversationContext where
  current_focus : Option String
  last_created_note : Option String
  last_modified_note : Option String
  last_opened_notes : List String
  current_session_entities : List (String × List String)
  recent_operations : List (String × String × String)
deriving DecidableEq

/-- A freshly constructed `ConversationContext`. -/
def emptyContext : ConversationContext := ⟨none, none, none, [], [], []⟩

/-- Python `ConversationContext.resolve_reference(reference)`: the fixed-priority
cascade over pronouns, recency phrases, the memory store, and session
entities. -/
def contextResolveReference (ctx : ConversationContext) (m : AgentMemory)
    (reference : String) : Option String :=
  let rl := normalizeTerm reference
  if rl == "it" || rl == "that" || rl == "this" || rl == "the note" then
    pyOr ctx.current_focus (pyOr ctx.last_modified_note ctx.last_created_note)
  else if pyIn "just created" rl || pyIn "i created" rl then
    ctx.last_created_note
  else if pyIn "last opened" rl || pyIn "opened" rl then
    ctx.last_opened_notes.head?
  else if pyIn "current" rl || pyIn "this note" rl then
    ctx.current_focus
  else
    let mr := resolveNoteReference m reference
    if pyTruthy mr then mr
    else
      match ctx.current_session_entities.find? (fun en => isSub rl.data (pyLower en.1).data) with
      | some (_, n :: _) => some n
      | some (_, []) => none
      | none => none

/-- Python `ConversationContext.update_focus(note_name, operation_type)` (`ts` is the
`datetime.now().isoformat()` recorded with the operation). -/
def updateFocus (ctx : ConversationContext) (note_name operation_type ts : String) :
    ConversationContext :=
  let cf := if operation_type == "create_note" || operation_type == "open_note" ||
      operation_type == "edit_note" then some note_name else ctx.current_focus
  let lc := if operation_type == "create_note" then some note_name else ctx.last_created_note
  let lm := if operation_type == "edit_note" || operation_type == "insert_section" ||
      operation_type == "append_section" then some note_name else ctx.last_modified_note
  let lo := if operation_type == "open_note" || operation_type == "open_notes" then
      (if note_name ∈ ctx.last_opened_notes then ctx.last_opened_notes
       else note_name :: ctx.last_opened_notes).take 5
    else ctx.last_opened_notes
  let ro := ctx.recent_operations ++ [(ts, operation_type, note_name)]
  let ro := if ro.length ≤ 10 then ro else ro.drop (ro.length - 10)
  { ctx with current_focus := cf, last_created_note := lc, last_modified_note := lm,
             last_opened_notes := lo, recent_operations := ro }

/-! ### Tools layer (`src/agent_tools.py`, class `AgentTools`)

The vault is modelled as the ordered list of relative `.md` paths that
`_tool_list_notes()` (no query) enumerates; `path.exists()` for a vault-relative
path is membership in that list. -/

/-- A `(note, confidence)` candidate produced by `_fallback_simple_matching`.
The human-readable `reason` string the Python code attaches is
presentation-only and elided here. -/
structure Suggestion where
  note : String
  confidence : ℚ
deriving DecidableEq

/-- ASCII `\w` as in `re.findall(r'\w+', s)`. -/
def isWordChar (c : Char) : Bool :=
  decide ((97 ≤ c.toNat ∧ c.toNat ≤ 122) ∨ (65 ≤ c.toNat ∧ c.toNat ≤ 90) ∨
    (48 ≤ c.toNat ∧ c.toNat ≤ 57) ∨ c.toNat = 95)

/-- Maximal runs of word characters (`re.findall(r'\w+', s)`). -/
def wordsAux : List Char → List Char → List (List Char)
  | [], acc => if acc = [] then [] else [acc.reverse]
  | c :: rest, acc =>
    if isWordChar c then wordsAux rest (c :: acc)
    else if acc = [] then wordsAux rest [] else acc.reverse :: wordsAux rest []

def pyWords (l : List Char) : List (List Char) := wordsAux l []

/-- Python `s.replace('.md', '')`: drop every (non-overlapping, left-to-right)
occurrence. -/
def removeMd : List Char → List Char
  | '.' :: 'm' :: 'd' :: rest => removeMd rest
  | c :: rest => c :: removeMd rest
  | [] => []

/-- Python `name.lower().replace('.md', '').strip()` as applied to both sides in
`_fallback_simple_matching`. -/
def cleanName (s : String) : String := ⟨pyStripList (removeMd (pyLower s).data)⟩

/-- Count of exactly equal `(target_word, note_word)` pairs (the nested loop
increments once per pair, so repeated words count repeatedly). -/
def countExactMatches (tws nws : List (List Char)) : Nat :=
  (tws.map (fun tw => (nws.filter (fun nw => nw == tw)).length)).sum

/-- Count of `(target_word, note_word)` pairs that are unequal but where one
contains the other (each contributes `0.5` to the Python score). -/
def countHalfMatches (tws nws : List (List Char)) : Nat :=
  (tws.map (fun tw =>
    (nws.filter (fun nw => !(nw == tw) && (isSub tw nw || isSub nw tw))).length)).sum

/-- Python `s.split('/')[-1]`: the segment after the last slash. -/
def lastSlashSegment (l : List Char) : List Char :=
  (l.reverse.takeWhile (fun c => !(c == '/'))).reverse

/-- Python `word_score`: exact token matches count 1, partial containments 0.5,
normalised by the reference token count (0 when the reference has no
tokens). -/
def wordScore (target_name note : String) : ℚ :=
  let tws := pyWords (cleanName target_name).data
  if tws = [] then 0
  else ((countExactMatches tws (pyWords (cleanName note).data) : ℚ) +
        (countHalfMatches tws (pyWords (cleanName note).data) : ℚ) / 2) / (tws.length : ℚ)

/-- Python `pattern_bonus`: a bonus of 0.3 when the raw reference contains a path separator
and its lowered final segment occurs in the cleaned candidate. -/
def patternBonus (target_name note : String) : ℚ :=
  if target_name.data.contains '/' then
    (if isSub ((lastSlashSegment target_name.data).map pyCharLower)
        (cleanName note).data then 0.3 else 0)
  else 0

/-- Python `final_score = max(similarity, word_score) + pattern_bonus` — no cap is
applied in the source. -/
def finalScore (target_name note : String) : ℚ :=
  max (strSimilarity (cleanName target_name) (cleanName note))
    (wordScore target_name note) + patternBonus target_name note

/-- The body of `_fallback_simple_matching`'s loop for a single candidate
note: `some` suggestion when the note is kept, `none` when it is filtered
out.  Branches and constants follow the source line by line. -/
def scoreNote (target_name : String) (note : String) : Option Suggestion :=
  if isSub (cleanName target_name).data (cleanName note).data then some ⟨note, 0.95⟩
  else if isSub (cleanName note).data (cleanName target_name).data then some ⟨note, 0.9⟩
  else if 0.25 < finalScore target_name note ∨
      0 < countExactMatches (pyWords (cleanName target_name).data)
        (pyWords (cleanName note).data) then
    some ⟨note, finalScore target_name note⟩
  else none

/-- Stable insertion into a descending-by-confidence list: a new element goes
after existing elements of equal confidence, which is exactly the order
Python's stable `sort(key=..., reverse=True)` produces. -/
def insertDesc (s : Suggestion) : List Suggestion → List Suggestion
  | [] => [s]
  | x :: xs => if x.confidence < s.confidence then s :: x :: xs else x :: insertDesc s xs

/-- Stable descending sort by confidence (extensionally equal to Python's
stable `list.sort(key=lambda x: x['confidence'], reverse=True)`). -/
def sortByConfidence (l : List Suggestion) : List Suggestion :=
  l.foldl (fun acc s => insertDesc s acc) []

/-- Python `AgentTools._fallback_simple_matching(target_name, all_notes, max_suggestions)`. -/
def fallbackSimpleMatching (target_name : String) (all_notes : List String)
    (max_suggestions : Nat) : List Suggestion :=
  (sortByConfidence (all_notes.filterMap (scoreNote target_name))).take max_suggestions

/-- Python `AgentTools._find_similar_notes(target_name, max_suggestions)`: list the
vault and delegate to `_fallback_simple_matching`. -/
def findSimilarNotes (target_name : String) (vault : List String)
    (max_suggestions : Nat) : List Suggestion :=
  if vault = [] then [] else fallbackSimpleMatching target_name vault max_suggestions

/-- The interactive answer consumed by `_ask_user_for_note_confirmation`:
cancellation, a non-numeric string, or a number together with the name typed
at the manual-entry prompt (only consulted when the number selects manual
entry). -/
inductive UserReply
  | cancel
  | nonNumeric
  | num (i : Nat) (manual_name : String)
deriving DecidableEq

/-- Python `AgentTools._ask_user_for_note_confirmation(target_name, suggestions)`. -/
def askUserForNoteConfirmation (suggestions : List Suggestion) (reply : UserReply) :
    Option String :=
  match reply with
  | UserReply.cancel => none
  | UserReply.nonNumeric => none
  | UserReply.num i manual =>
    if 1 ≤ i ∧ i ≤ suggestions.length then
      (suggestions.get? (i - 1)).map Suggestion.note
    else if i = suggestions.length + 1 then
      if manual == "" then none
      else if pyEndsWith ".md" manual then some manual else some (manual ++ ".md")
    else none

/-- The characters `_validate_note_name` replaces with `'_'`. -/
def invalidChars : List Char := ['<', '>', ':', '"', '/', '\\', '|', '?', '*']

/-- Python `AgentTools._validate_note_name(name)` for a nonempty name: sanitise and
ensure the `.md` extension.  (For the empty name the Python method raises
`AgentToolError`; callers below model that path explicitly.) -/
def sanitizeName (name : String) : String :=
  let s : String := ⟨name.data.map (fun c => if c ∈ invalidChars then '_' else c)⟩
  if pyEndsWith ".md" s then s else s ++ ".md"

/-- Which branch of `_resolve_note_with_fallback` produced the result — the
branches are observable in the source through their distinct console
messages. -/
inductive ResolveOutcome
  | fromMemory (path : String)
  | fromContext (path : String)
  | direct (path : String)
  | fromDisambiguation (path : String)
  | notFound
deriving DecidableEq

/-- Python `AgentTools._resolve_note_with_fallback(name)`.  Early `return`s become
nested conditionals; the `AgentToolError` raised by `_validate_note_name` on
an empty name is caught by the surrounding `except`, which yields `None`
(`notFound`).  The second component is the memory store after the call (the
context step registers its resolution; no other step mutates memory). -/
def resolveNoteWithFallback (m : AgentMemory) (ctx : ConversationContext)
    (vault : List String) (name : String) (reply : UserReply) (ts : String) :
    ResolveOutcome × AgentMemory :=
  let mr := resolveNoteReference m name
  if pyTruthy mr && vault.contains (mr.getD "") then
    (ResolveOutcome.fromMemory (mr.getD ""), m)
  else
    let cr := contextResolveReference ctx m name
    if pyTruthy cr && vault.contains (cr.getD "") then
      (ResolveOutcome.fromContext (cr.getD ""),
       registerNoteReference m name (cr.getD "") "context resolution" ts)
    else
      let np? : Option String :=
        if name.data.contains '/' then
          some (if pyEndsWith ".md" name then name else name ++ ".md")
        else if name == "" then none
        else some (sanitizeName name)
      match np? with
      | none => (ResolveOutcome.notFound, m)
      | some np =>
        if vault.contains np then (ResolveOutcome.direct np, m)
        else
          let sugg := findSimilarNotes name vault 5
          if sugg.isEmpty then (ResolveOutcome.notFound, m)
          else
            match askUserForNoteConfirmation sugg reply with
            | none => (ResolveOutcome.notFound, m)
            | some sel =>
              if sel == "" then (ResolveOutcome.notFound, m)
              else (ResolveOutcome.fromDisambiguation sel, m)

/-! ### Supporting lemmas -/

theorem charOfNat_toNat (n : Nat) (h : n.isValidChar) : (Char.ofNat n).toNat = n := by
  rw [Char.ofNat, dif_pos h]
  rfl

theorem pyCharLower_toNat_of_upper (c : Char) (h : 65 ≤ c.toNat ∧ c.toNat ≤ 90) :
    (pyCharLower c).toNat = c.toNat + 32 := by
  have h1 : pyCharLower c = Char.ofNat (c.toNat + 32) := by rw [pyCharLower, if_pos h]
  have hv : (c.toNat + 32).isValidChar := Or.inl (by omega)
  rw [h1]
  exact charOfNat_toNat _ hv

theorem pyCharLower_of_not_upper (c : Char) (h : ¬(65 ≤ c.toNat ∧ c.toNat ≤ 90)) :
    pyCharLower c = c := by
  rw [pyCharLower, if_neg h]

theorem pyCharLower_idem (c : Char) : pyCharLower (pyCharLower c) = pyCharLower c := by
  by_cases h : 65 ≤ c.toNat ∧ c.toNat ≤ 90
  · have h2 := pyCharLower_toNat_of_upper c h
    exact pyCharLower_of_not_upper _ (by omega)
  · rw [pyCharLower_of_not_upper c h, pyCharLower_of_not_upper c h]

theorem map_fixed {α : Type} (f : α → α) :
    ∀ L : List α, (∀ c ∈ L, f c = c) → L.map f = L := by
  intro L h
  induction L with
  | nil => rfl
  | cons x xs ih =>
    simp only [List.map_cons]
    rw [h x (by simp), ih (fun c hc => h c (by simp [hc]))]

theorem mem_pyStripList (c : Char) (L : List Char) (h : c ∈ pyStripList L) : c ∈ L := by
  unfold pyStripList at h
  rw [List.mem_reverse] at h
  have h1 := (List.dropWhile_sublist _).subset h
  rw [List.mem_reverse] at h1
  exact (List.dropWhile_sublist _).subset h1

theorem pyLower_normalizeTerm (s : String) :
    pyLower (normalizeTerm s) = normalizeTerm s := by
  show pyLower (pyStrip (pyLower s)) = pyStrip (pyLower s)
  have hd : (pyStrip (pyLower s)).data = pyStripList (s.data.map pyCharLower) := rfl
  apply congrArg String.mk
  rw [hd]
  apply map_fixed
  intro c hc
  obtain ⟨y, _, hy⟩ := List.mem_map.mp (mem_pyStripList c _ hc)
  rw [← hy]
  exact pyCharLower_idem y

theorem lookup_dictInsert_self {β : Type} (l : List (String × β)) (k : String) (v : β) :
    List.lookup k (dictInsert l k v) = some v := by
  induction l with
  | nil => simp [dictInsert, List.lookup]
  | cons hd tl ih =>
    obtain ⟨k', v'⟩ := hd
    rw [dictInsert]
    by_cases h : k' = k
    · rw [if_pos h]
      simp [List.lookup]
    · rw [if_neg h]
      have hne : (k == k') = false := beq_eq_false_iff_ne.mpr (fun e => h e.symm)
      simp [List.lookup, hne, ih]

theorem lookup_dictInsert_ne {β : Type} (l : List (String × β)) (k k' : String) (v : β)
    (h : k' ≠ k) : List.lookup k' (dictInsert l k v) = List.lookup k' l := by
  induction l with
  | nil => simp [dictInsert, List.lookup, beq_eq_false_iff_ne.mpr h]
  | cons hd tl ih =>
    obtain ⟨k0, v0⟩ := hd
    rw [dictInsert]
    by_cases h0 : k0 = k
    · rw [if_pos h0]
      simp [List.lookup, beq_eq_false_iff_ne.mpr h, h0]
    · rw [if_neg h0]
      simp [List.lookup, ih]

/-! ### Claim C3 — synchronous persistence, atomicity of the store files -/

theorem loadMemory_applyOps_save (d : Disk) (m : AgentMemory) :
    loadMemory (applyOps d (saveMemoryOps m)) = m := by
  obtain ⟨nr, ua, en, cp, up⟩ := m
  have e : applyOps d (saveMemoryOps ⟨nr, ua, en, cp, up⟩) =
      dictInsert (dictInsert (dictInsert (dictInsert (dictInsert d
        "note_references.json" (StoreContent.noteRefs nr))
        "user_aliases.json" (StoreContent.aliases ua))
        "entities.json" (StoreContent.ents en))
        "conversation_patterns.json" (StoreContent.pats cp))
        "user_preferences.json" (StoreContent.prefs up) := rfl
  rw [e]
  simp only [loadMemory, AgentMemory.mk.injEq]
  refine ⟨?_, ?_, ?_, ?_, ?_⟩
  · rw [lookup_dictInsert_ne _ _ _ _ (by decide), lookup_dictInsert_ne _ _ _ _ (by decide),
      lookup_dictInsert_ne _ _ _ _ (by decide), lookup_dictInsert_ne _ _ _ _ (by decide),
      lookup_dictInsert_self]
  · rw [lookup_dictInsert_ne _ _ _ _ (by decide), lookup_dictInsert_ne _ _ _ _ (by decide),
      lookup_dictInsert_ne _ _ _ _ (by decide), lookup_dictInsert_self]
  · rw [lookup_dictInsert_ne _ _ _ _ (by decide), lookup_dictInsert_ne _ _ _ _ (by decide),
      lookup_dictInsert_self]
  · rw [lookup_dictInsert_ne _ _ _ _ (by decide), lookup_dictInsert_self]
  · rw [lookup_dictInsert_self]

/-- C3 (amended): every mutating memory-store operation — reference
registration, entity registration, pattern learning — performs its save
synchronously before returning, and reloading the files it wrote recovers
exactly the post-mutation in-memory state, whatever the previous disk
contents.  (The write-to-temp-plus-rename part of the original claim is
refuted separately: the saves are direct overwrites.) -/
theorem mutations_persist_synchronously (d : Disk) (m : AgentMemory)
    (t p ctx ts n ty ui rn : String) (rel : List String) :
    loadMemory (applyOps d (registerNoteReferencePersist m t p ctx ts).2) =
      (registerNoteReferencePersist m t p ctx ts).1 ∧
    loadMemory (applyOps d (registerEntityPersist m n ty rel ctx ts).2) =
      (registerEntityPersist m n ty rel ctx ts).1 ∧
    loadMemory (applyOps d (learnUserPatternPersist m ui rn).2) =
      (learnUserPatternPersist m ui rn).1 :=
  ⟨loadMemory_applyOps_save _ _, loadMemory_applyOps_save _ _,
   loadMemory_applyOps_save _ _⟩

/-- C3 (counterexample): the save trace of `_save_memory` writes the final
store files directly — it contains a write to `user_aliases.json` itself and
no rename at all, so no persisted file is produced by a write-to-temp
followed by a rename. -/
theorem save_is_direct_overwrite_counterexample :
    ¬ atomicWriteDiscipline (saveMemoryOps emptyMemory) ∧
    FileOp.writeFile "user_aliases.json" (StoreContent.aliases emptyMemory.user_aliases) ∈
      saveMemoryOps emptyMemory := by
  constructor
  · intro h
    obtain ⟨dst, hd⟩ := h "user_aliases.json" (StoreContent.aliases [])
      (by simp [saveMemoryOps, emptyMemory])
    simp [saveMemoryOps] at hd
  · simp [saveMemoryOps, emptyMemory]

/-! ### Claim C7 — idempotent upsert of a repeated registration -/

/-- C7: registering the same `(term, path)` twice on a fresh store leaves a
single alias entry for the normalised term, a single per-note reference
record with `usage_count = 2` (timestamps refreshed, original `first_used`
kept), and the term still resolves to the unchanged path. -/
theorem register_twice_idempotent_upsert (t p c1 c2 ts1 ts2 : String) :
    List.lookup p (registerNoteReference (registerNoteReference emptyMemory t p c1 ts1)
        t p c2 ts2).note_references =
      some [⟨normalizeTerm t, p, 1, ts1, ts2, 2, c2⟩] ∧
    (registerNoteReference (registerNoteReference emptyMemory t p c1 ts1)
        t p c2 ts2).user_aliases = [(normalizeTerm t, p)] ∧
    resolveNoteReference (registerNoteReference (registerNoteReference emptyMemory t p c1 ts1)
        t p c2 ts2) t = some p := by
  have h1 : registerNoteReference emptyMemory t p c1 ts1 =
      { emptyMemory with
        user_aliases := [(normalizeTerm t, p)]
        note_references := [(p, [⟨normalizeTerm t, p, 1, ts1, ts1, 1, c1⟩])] } := by
    rw [registerNoteReference]
    simp [dictInsert, updateRefs, List.lookup, emptyMemory]
  have h2 : registerNoteReference (registerNoteReference emptyMemory t p c1 ts1) t p c2 ts2 =
      { emptyMemory with
        user_aliases := [(normalizeTerm t, p)]
        note_references := [(p, [⟨normalizeTerm t, p, 1, ts1, ts2, 2, c2⟩])] } := by
    rw [h1, registerNoteReference]
    simp [dictInsert, updateRefs, bumpRef, List.lookup, pyLower_normalizeTerm]
  rw [h2]
  refine ⟨by simp [List.lookup], rfl, ?_⟩
  rw [resolveNoteReference]
  simp [List.lookup]

/-! ### Claim C10 — re-registration under a different path -/

/-- C10: after `register(t, p1)` then `register(t, p2)` with `p1 ≠ p2`, the
alias for the normalised term points to `p2` (last write wins) and resolves
there, while the per-note record created for `(t, p1)` is retained under
`p1` with its `usage_count` still `1`. -/
theorem register_rebind_last_write_wins (t p1 p2 c1 c2 ts1 ts2 : String) (hne : p1 ≠ p2) :
    resolveNoteReference (registerNoteReference
        (registerNoteReference emptyMemory t p1 c1 ts1) t p2 c2 ts2) t = some p2 ∧
    List.lookup (normalizeTerm t) (registerNoteReference
        (registerNoteReference emptyMemory t p1 c1 ts1) t p2 c2 ts2).user_aliases = some p2 ∧
    List.lookup p1 (registerNoteReference
        (registerNoteReference emptyMemory t p1 c1 ts1) t p2 c2 ts2).note_references =
      some [⟨normalizeTerm t, p1, 1, ts1, ts1, 1, c1⟩] := by
  have h1 : registerNoteReference emptyMemory t p1 c1 ts1 =
      { emptyMemory with
        user_aliases := [(normalizeTerm t, p1)]
        note_references := [(p1, [⟨normalizeTerm t, p1, 1, ts1, ts1, 1, c1⟩])] } := by
    rw [registerNoteReference]
    simp [dictInsert, updateRefs, List.lookup, emptyMemory]
  have h2 : registerNoteReference (registerNoteReference emptyMemory t p1 c1 ts1) t p2 c2 ts2 =
      { emptyMemory with
        user_aliases := [(normalizeTerm t, p2)]
        note_references := [(p1, [⟨normalizeTerm t, p1, 1, ts1, ts1, 1, c1⟩]),
          (p2, [⟨normalizeTerm t, p2, 1, ts2, ts2, 1, c2⟩])] } := by
    rw [h1, registerNoteReference]
    simp [dictInsert, updateRefs, bumpRef, List.lookup,
      beq_eq_false_iff_ne.mpr (Ne.symm hne), hne]
  rw [h2]
  refine ⟨?_, by simp [List.lookup], by simp [List.lookup]⟩
  rw [resolveNoteReference]
  simp [List.lookup]

/-- Witness for C10 at a concrete instance. -/
theorem register_rebind_last_write_wins_witness :
    (("a.md" : String) ≠ "b.md") ∧
    (resolveNoteReference (registerNoteReference
        (registerNoteReference emptyMemory "T" "a.md" "c1" "t1") "T" "b.md" "c2" "t2") "T" =
        some "b.md" ∧
      List.lookup (normalizeTerm "T") (registerNoteReference
        (registerNoteReference emptyMemory "T" "a.md" "c1" "t1") "T" "b.md" "c2" "t2").user_aliases =
        some "b.md" ∧
      List.lookup "a.md" (registerNoteReference
        (registerNoteReference emptyMemory "T" "a.md" "c1" "t1") "T" "b.md" "c2" "t2").note_references =
        some [⟨normalizeTerm "T", "a.md", 1, "t1", "t1", 1, "c1"⟩]) :=
  ⟨by decide, register_rebind_last_write_wins "T" "a.md" "b.md" "c1" "c2" "t1" "t2" (by decide)⟩

/-! ### Claim C9 — the `last_opened` list under `update_focus` -/

/-- C9 (amended): `update_focus` preserves "at most 5 entries, no
duplicates" for `last_opened_notes`, and an opened document that is not yet
in the list is prepended; a document already present is left in place (the
original claim's move-to-front is refuted separately). -/
theorem updateFocus_last_opened_invariant (ctx : ConversationContext)
    (note op ts : String)
    (hnd : ctx.last_opened_notes.Nodup) (hlen : ctx.last_opened_notes.length ≤ 5) :
    ((updateFocus ctx note op ts).last_opened_notes.Nodup ∧
      (updateFocus ctx note op ts).last_opened_notes.length ≤ 5) ∧
    ((op = "open_note" ∨ op = "open_notes") → note ∉ ctx.last_opened_notes →
      (updateFocus ctx note op ts).last_opened_notes =
        (note :: ctx.last_opened_notes).take 5) := by
  simp only [updateFocus]
  by_cases hb : (op == "open_note" || op == "open_notes") = true
  · rw [if_pos hb]
    by_cases hm : note ∈ ctx.last_opened_notes
    · rw [if_pos hm]
      refine ⟨⟨(List.take_sublist _ _).nodup hnd, ?_⟩, fun _ hnm => absurd hm hnm⟩
      simp [List.length_take]
    · rw [if_neg hm]
      refine ⟨⟨(List.take_sublist _ _).nodup (List.nodup_cons.mpr ⟨hm, hnd⟩), ?_⟩,
        fun _ _ => rfl⟩
      simp [List.length_take]
  · rw [if_neg hb]
    refine ⟨⟨hnd, hlen⟩, fun hop _ => ?_⟩
    exact absurd (by rcases hop with h | h <;> simp [h]) hb

/-- Witness for C9 at a concrete instance. -/
theorem updateFocus_last_opened_invariant_witness :
    (((updateFocus emptyContext "A.md" "open_note" "t").last_opened_notes.Nodup ∧
      (updateFocus emptyContext "A.md" "open_note" "t").last_opened_notes.length ≤ 5) ∧
    (("open_note" = "open_note" ∨ "open_note" = "open_notes") →
      "A.md" ∉ emptyContext.last_opened_notes →
      (updateFocus emptyContext "A.md" "open_note" "t").last_opened_notes =
        ("A.md" :: emptyContext.last_opened_notes).take 5)) :=
  updateFocus_last_opened_invariant emptyContext "A.md" "open_note" "t"
    (by decide) (by decide)

/-- C9 (counterexample): opening `A.md` again while `last_opened` is
`["B.md", "A.md"]` leaves the list unchanged — the re-opened document is not
moved to the front. -/
theorem updateFocus_reopen_not_moved_to_front :
    (updateFocus (updateFocus (updateFocus emptyContext "A.md" "open_note" "t1")
        "B.md" "open_note" "t2") "A.md" "open_note" "t3").last_opened_notes =
      ["B.md", "A.md"] ∧
    (updateFocus (updateFocus (updateFocus emptyContext "A.md" "open_note" "t1")
        "B.md" "open_note" "t2") "A.md" "open_note" "t3").last_opened_notes.head? ≠
      some "A.md" := by decide

/-! ### Claim C6 — pronoun cascade in `resolve_reference` -/

/-- C6 (amended): for a reference normalising to one of the pronouns, the
cascade returns `current_focus` when it is non-null **and nonempty** (Python
truthiness), else `last_modified_note` under the same proviso, else
`last_created_note`. -/
theorem contextResolve_pronoun_cascade (ctx : ConversationContext) (m : AgentMemory)
    (ref : String)
    (h : normalizeTerm ref = "it" ∨ normalizeTerm ref = "that" ∨
      normalizeTerm ref = "this" ∨ normalizeTerm ref = "the note") :
    (pyTruthy ctx.current_focus = true →
        contextResolveReference ctx m ref = ctx.current_focus) ∧
    (pyTruthy ctx.current_focus = false → pyTruthy ctx.last_modified_note = true →
        contextResolveReference ctx m ref = ctx.last_modified_note) ∧
    (pyTruthy ctx.current_focus = false → pyTruthy ctx.last_modified_note = false →
        contextResolveReference ctx m ref = ctx.last_created_note) := by
  have hb : (normalizeTerm ref == "it" || normalizeTerm ref == "that" ||
      normalizeTerm ref == "this" || normalizeTerm ref == "the note") = true := by
    rcases h with h | h | h | h <;> simp [h]
  simp only [contextResolveReference]
  rw [if_pos hb]
  refine ⟨fun h1 => ?_, fun h1 h2 => ?_, fun h1 h2 => ?_⟩
  · simp [pyOr, h1]
  · simp [pyOr, h1, h2]
  · simp [pyOr, h1, h2]

/-- Witness for C6 at the concrete A/B/C instance. -/
theorem contextResolve_pronoun_cascade_witness :
    (normalizeTerm "it" = "it" ∨ normalizeTerm "it" = "that" ∨
      normalizeTerm "it" = "this" ∨ normalizeTerm "it" = "the note") ∧
    contextResolveReference
      { emptyContext with current_focus := some "A", last_modified_note := some "B",
                          last_created_note := some "C" } emptyMemory "it" = some "A" := by
  refine ⟨Or.inl (by decide), ?_⟩
  have h := contextResolve_pronoun_cascade
    { emptyContext with current_focus := some "A", last_modified_note := some "B",
                        last_created_note := some "C" } emptyMemory "it" (Or.inl (by decide))
  exact h.1 (by decide)

/-- C6 (counterexample): with `current_focus = ""` (non-null but empty),
`last_modified = "B"`, `last_created = "C"`, resolving `"it"` returns
`"B"`, not the non-null `current_focus` — the cascade follows Python
truthiness, not null-ness. -/
theorem contextResolve_pronoun_empty_focus_counterexample :
    ({ emptyContext with current_focus := some "", last_modified_note := some "B",
                         last_created_note := some "C" } : ConversationContext).current_focus ≠
      none ∧
    contextResolveReference { emptyContext with current_focus := some "",
                                                last_modified_note := some "B",
                                                last_created_note := some "C" }
      emptyMemory "it" = some "B" ∧
    (some "B" : Option String) ≠ some "" := by decide

/-! ### Claim C2 — `resolve_note_reference`: exact lookup and fuzzy fallback -/

theorem fuzzyScore_ge_of_contained (u als : String)
    (h : (pyIn u als || pyIn als u) = true) : 0.9 ≤ fuzzyScore u als := by
  simp only [fuzzyScore]
  rw [if_pos h]
  exact le_max_right _ _

theorem fuzzyBest_sound (u : String) (l : List (String × String)) :
    ∀ (best : Option String × ℚ) (p : String),
      (fuzzyBest u l best).1 = some p →
      best.1 = some p ∨ ∃ a, (a, p) ∈ l ∧ 0.8 ≤ fuzzyScore u a := by
  induction l with
  | nil =>
    intro best p h
    exact Or.inl h
  | cons hd tl ih =>
    intro best p h
    obtain ⟨als, path⟩ := hd
    simp only [fuzzyBest] at h
    rcases ih _ p h with h1 | ⟨a, ha, hs⟩
    · by_cases hc : best.2 < fuzzyScore u als ∧ 0.8 ≤ fuzzyScore u als
      · rw [if_pos hc] at h1
        have h2 : (some path : Option String) = some p := h1
        injection h2 with h3
        subst h3
        exact Or.inr ⟨als, List.mem_cons_self _ _, hc.2⟩
      · rw [if_neg hc] at h1
        exact Or.inl h1
    · exact Or.inr ⟨a, List.mem_cons_of_mem _ ha, hs⟩

/-- C2 (amended): `resolve_note_reference` returns the exactly stored path
whenever the normalised term is a key of `user_aliases`; any other returned
path comes from the fuzzy fallback and is stored under some alias whose
fuzzy score (difflib ratio, raised to at least 0.9 on mutual containment)
reaches the 0.8 threshold — the lookup is not exact-only. -/
theorem resolve_exact_precedence_and_fuzzy_provenance (m : AgentMemory) (t p : String)
    (h : resolveNoteReference m t = some p) :
    List.lookup (normalizeTerm t) m.user_aliases = some p ∨
    ∃ a, (a, p) ∈ m.user_aliases ∧ 0.8 ≤ fuzzyScore (normalizeTerm t) a := by
  simp only [resolveNoteReference] at h
  rcases hl : List.lookup (normalizeTerm t) m.user_aliases with _ | q
  · rw [hl] at h
    have h' : fuzzyMatchReferences m (normalizeTerm t) = some p := h
    simp only [fuzzyMatchReferences] at h'
    by_cases ht : pyTruthy (fuzzyBest (normalizeTerm t) m.user_aliases (none, 0)).1 = true
    · rw [if_pos ht] at h'
      rcases fuzzyBest_sound _ _ _ _ h' with h1 | h2
      · exact absurd h1 (by simp)
      · exact Or.inr h2
    · rw [if_neg ht] at h'
      exact absurd h' (by simp)
  · rw [hl] at h
    have h' : (some q : Option String) = some p := h
    injection h' with h2
    subst h2
    exact Or.inl rfl

/-- Witness for C2 at a concrete instance (exact branch). -/
theorem resolve_exact_precedence_witness :
    resolveNoteReference ⟨[], [("ab", "x.md")], [], [], []⟩ "Ab " = some "x.md" ∧
    (List.lookup (normalizeTerm "Ab ")
        (⟨[], [("ab", "x.md")], [], [], []⟩ : AgentMemory).user_aliases = some "x.md" ∨
      ∃ a, (a, "x.md") ∈ (⟨[], [("ab", "x.md")], [], [], []⟩ : AgentMemory).user_aliases ∧
        0.8 ≤ fuzzyScore (normalizeTerm "Ab ") a) := by
  have h1 : resolveNoteReference ⟨[], [("ab", "x.md")], [], [], []⟩ "Ab " = some "x.md" := rfl
  exact ⟨h1, resolve_exact_precedence_and_fuzzy_provenance _ _ _ h1⟩

/-- C2 (counterexample): the store holds only the alias `"ab"`, yet resolving
the different term `"abc"` returns the path stored under `"ab"` — the fuzzy
fallback fires (mutual containment raises the score to at least 0.9), so the
lookup is not exact-only. -/
theorem resolve_returns_similar_term_counterexample :
    List.lookup (normalizeTerm "abc")
      (⟨[], [("ab", "x.md")], [], [], []⟩ : AgentMemory).user_aliases = none ∧
    resolveNoteReference ⟨[], [("ab", "x.md")], [], [], []⟩ "abc" = some "x.md" := by
  refine ⟨by decide, ?_⟩
  have hge : (0.9 : ℚ) ≤ fuzzyScore "abc" "ab" := fuzzyScore_ge_of_contained _ _ (by decide)
  have hc : (0 : ℚ) < fuzzyScore "abc" "ab" ∧ (0.8 : ℚ) ≤ fuzzyScore "abc" "ab" :=
    ⟨lt_of_lt_of_le (by norm_num) hge, le_trans (by norm_num) hge⟩
  have hn : normalizeTerm "abc" = "abc" := by decide
  have hl : List.lookup "abc" ([("ab", "x.md")] : List (String × String)) = none := by decide
  simp only [resolveNoteReference, hn]
  rw [hl]
  show fuzzyMatchReferences _ "abc" = some "x.md"
  simp only [fuzzyMatchReferences, fuzzyBest]
  rw [if_pos hc]
  simp [pyTruthy]

/-! ### Claim C8 — empty or whitespace-only reference terms -/

/-- C8 (amended, part that holds): with an empty memory store and a fresh
context, an empty reference resolves to nothing — but only because, after the
memory and context lookups have both run and failed, `_get_note_path` raises
on the empty name and the handler converts it to no-result. -/
theorem empty_term_unresolved_on_empty_stores (vault : List String) (reply : UserReply)
    (ts : String) :
    resolveNoteWithFallback emptyMemory emptyContext vault "" reply ts =
      (ResolveOutcome.notFound, emptyMemory) := rfl

/-- C8 (counterexample): with one learned alias in the store, the empty term
is resolved by the memory fuzzy lookup (the empty string is contained in
every alias, scoring at least 0.9) and a document path **is** returned — the
empty term is not rejected before the cascade. -/
theorem empty_term_resolves_from_memory_counterexample :
    resolveNoteWithFallback ⟨[], [("meeting notes", "m.md")], [], [], []⟩ emptyContext
      ["m.md"] "" UserReply.cancel "t" =
      (ResolveOutcome.fromMemory "m.md", ⟨[], [("meeting notes", "m.md")], [], [], []⟩) := by
  have hge : (0.9 : ℚ) ≤ fuzzyScore "" "meeting notes" :=
    fuzzyScore_ge_of_contained _ _ (by decide)
  have hc : (0 : ℚ) < fuzzyScore "" "meeting notes" ∧
      (0.8 : ℚ) ≤ fuzzyScore "" "meeting notes" :=
    ⟨lt_of_lt_of_le (by norm_num) hge, le_trans (by norm_num) hge⟩
  have hmr : resolveNoteReference ⟨[], [("meeting notes", "m.md")], [], [], []⟩ "" =
      some "m.md" := by
    have hn : normalizeTerm "" = "" := rfl
    have hl : List.lookup ""
        ([("meeting notes", "m.md")] : List (String × String)) = none := by decide
    simp only [resolveNoteReference, hn]
    rw [hl]
    show fuzzyMatchReferences _ "" = some "m.md"
    simp only [fuzzyMatchReferences, fuzzyBest]
    rw [if_pos hc]
    simp [pyTruthy]
  simp only [resolveNoteWithFallback, hmr]
  simp [pyTruthy]

/-! ### Claim C5 — containment candidates versus partial-token candidates -/

/-- C5 (amended): a candidate whose cleaned name contains the cleaned
reference as an exact substring always scores exactly `0.95` (the first
branch of `_fallback_simple_matching`).  This does not dominate candidates
sharing only partial token matches in general, which is refuted separately. -/
theorem containment_scores_95 (t n : String)
    (h : isSub (cleanName t).data (cleanName n).data = true) :
    scoreNote t n = some ⟨n, 0.95⟩ := by
  simp only [scoreNote]
  rw [if_pos h]

/-- Witness for C5 at a concrete instance. -/
theorem containment_scores_95_witness :
    isSub (cleanName "plan").data (cleanName "my plans.md").data = true ∧
    scoreNote "plan" "my plans.md" = some ⟨"my plans.md", 0.95⟩ :=
  ⟨by decide, containment_scores_95 "plan" "my plans.md" (by decide)⟩

/-- C5 (counterexample): against the reference `"ab cd"`, the candidate
`"xx ab cd yy.md"` (exact substring containment) scores `0.95`, while the
candidate `"abx aby abz cdx.md"` — which shares no exact token with the
reference, only partial containments — scores `max(similarity, 1.0) ≥ 1.0 >
0.95`, because each reference token partially matches several candidate
tokens.  The claimed monotonicity fails. -/
theorem partial_tokens_outscore_containment_counterexample :
    scoreNote "ab cd" "xx ab cd yy.md" = some ⟨"xx ab cd yy.md", 0.95⟩ ∧
    (∃ s, scoreNote "ab cd" "abx aby abz cdx.md" = some s ∧
      countExactMatches (pyWords (cleanName "ab cd").data)
        (pyWords (cleanName "abx aby abz cdx.md").data) = 0 ∧
      0 < countHalfMatches (pyWords (cleanName "ab cd").data)
        (pyWords (cleanName "abx aby abz cdx.md").data) ∧
      (0.95 : ℚ) < s.confidence) := by
  constructor
  · simp only [scoreNote]
    rw [if_pos (by decide)]
  · have hws : wordScore "ab cd" "abx aby abz cdx.md" = 1 := by
      have hne : ¬(pyWords (cleanName "ab cd").data = []) := by decide
      have hwm : countExactMatches (pyWords (cleanName "ab cd").data)
          (pyWords (cleanName "abx aby abz cdx.md").data) = 0 := by decide
      have hhm : countHalfMatches (pyWords (cleanName "ab cd").data)
          (pyWords (cleanName "abx aby abz cdx.md").data) = 4 := by decide
      have hlen : (pyWords (cleanName "ab cd").data).length = 2 := by decide
      simp only [wordScore, hwm, hhm, hlen]
      rw [if_neg hne]
      norm_num
    have hpb : patternBonus "ab cd" "abx aby abz cdx.md" = 0 := by
      simp only [patternBonus]
      rw [if_neg (by decide)]
    have hfs : (1 : ℚ) ≤ finalScore "ab cd" "abx aby abz cdx.md" := by
      rw [finalScore, hws, hpb, add_zero]
      exact le_max_right _ _
    have hincl : (0.25 : ℚ) < finalScore "ab cd" "abx aby abz cdx.md" ∨
        0 < countExactMatches (pyWords (cleanName "ab cd").data)
          (pyWords (cleanName "abx aby abz cdx.md").data) :=
      Or.inl (lt_of_lt_of_le (by norm_num) hfs)
    have hsc : scoreNote "ab cd" "abx aby abz cdx.md" =
        some ⟨"abx aby abz cdx.md", finalScore "ab cd" "abx aby abz cdx.md"⟩ := by
      simp only [scoreNote]
      rw [if_neg (by decide), if_neg (by decide), if_pos hincl]
    exact ⟨⟨"abx aby abz cdx.md", finalScore "ab cd" "abx aby abz cdx.md"⟩, hsc,
      by decide, by decide, lt_of_lt_of_le (by norm_num) hfs⟩

/-! ### Claim C4 — range of the fuzzy-matching confidence -/

theorem patternBonus_nonneg (t n : String) : 0 ≤ patternBonus t n := by
  rw [patternBonus]
  split_ifs <;> norm_num

theorem finalScore_nonneg (t n : String) : 0 ≤ finalScore t n := by
  rw [finalScore]
  exact add_nonneg (le_trans (strSimilarity_nonneg _ _) (le_max_left _ _))
    (patternBonus_nonneg t n)

theorem scoreNote_nonneg (t n : String) (s : Suggestion) (h : scoreNote t n = some s) :
    0 ≤ s.confidence := by
  simp only [scoreNote] at h
  split_ifs at h with h1 h2 h3
  · injection h with h'
    rw [← h']
    norm_num
  · injection h with h'
    rw [← h']
    norm_num
  · injection h with h'
    rw [← h']
    exact finalScore_nonneg t n

theorem mem_insertDesc (s x : Suggestion) (l : List Suggestion)
    (h : x ∈ insertDesc s l) : x = s ∨ x ∈ l := by
  induction l with
  | nil =>
    rw [insertDesc] at h
    exact Or.inl (List.mem_singleton.mp h)
  | cons y ys ih =>
    rw [insertDesc] at h
    by_cases hc : y.confidence < s.confidence
    · rw [if_pos hc] at h
      rcases List.mem_cons.mp h with h1 | h2
      · exact Or.inl h1
      · exact Or.inr h2
    · rw [if_neg hc] at h
      rcases List.mem_cons.mp h with h1 | h2
      · exact Or.inr (by simp [h1])
      · rcases ih h2 with a | b
        · exact Or.inl a
        · exact Or.inr (by simp [b])

theorem mem_sortByConfidence_aux (x : Suggestion) :
    ∀ (l acc : List Suggestion), x ∈ l.foldl (fun a s => insertDesc s a) acc →
      x ∈ acc ∨ x ∈ l := by
  intro l
  induction l with
  | nil =>
    intro acc h
    exact Or.inl h
  | cons y ys ih =>
    intro acc h
    rcases ih (insertDesc y acc) h with h1 | h2
    · rcases mem_insertDesc y x acc h1 with a | b
      · exact Or.inr (by simp [a])
      · exact Or.inl b
    · exact Or.inr (by simp [h2])

theorem mem_sortByConfidence (x : Suggestion) (l : List Suggestion)
    (h : x ∈ sortByConfidence l) : x ∈ l := by
  rcases mem_sortByConfidence_aux x l [] h with h1 | h2
  · exact absurd h1 (by simp)
  · exact h2

/-- C4 (amended): every confidence reported by `_fallback_simple_matching`
is nonnegative; the final score `max(similarity, word_score) +
pattern_bonus` is **not** capped at `1.0` (refuted separately), so `[0, 1]`
weakens to `[0, ∞)`. -/
theorem fallback_confidence_nonneg (t : String) (notes : List String) (k : Nat)
    (s : Suggestion) (h : s ∈ fallbackSimpleMatching t notes k) : 0 ≤ s.confidence := by
  rw [fallbackSimpleMatching] at h
  have h1 : s ∈ sortByConfidence (notes.filterMap (scoreNote t)) :=
    List.mem_of_mem_take h
  have h2 : s ∈ notes.filterMap (scoreNote t) := mem_sortByConfidence _ _ h1
  obtain ⟨n, _, hsc⟩ := List.mem_filterMap.mp h2
  exact scoreNote_nonneg t n s hsc

/-- Witness for C4 at a concrete instance. -/
theorem fallback_confidence_nonneg_witness :
    (⟨"ab.md", 0.95⟩ : Suggestion) ∈ fallbackSimpleMatching "a" ["ab.md"] 5 ∧
    (0 : ℚ) ≤ (⟨"ab.md", (0.95 : ℚ)⟩ : Suggestion).confidence := by
  have hsc : scoreNote "a" "ab.md" = some ⟨"ab.md", 0.95⟩ := by
    simp only [scoreNote]
    rw [if_pos (by decide)]
  have hmem : (⟨"ab.md", 0.95⟩ : Suggestion) ∈ fallbackSimpleMatching "a" ["ab.md"] 5 := by
    rw [fallbackSimpleMatching]
    simp [List.filterMap, hsc, sortByConfidence, insertDesc]
  exact ⟨hmem, fallback_confidence_nonneg "a" ["ab.md"] 5 _ hmem⟩

/-- C4 (counterexample): against the reference `"ab cd"`, the single vault
note `"ab ab zcdx.md"` is reported with confidence `max(similarity, 1.25) ≥
1.25 > 1`: the repeated token `ab` is counted once per occurrence and the
partial match `cd ⊂ zcdx` adds `0.5`, and no cap is applied. -/
theorem fallback_confidence_exceeds_one_counterexample :
    ∃ s, fallbackSimpleMatching "ab cd" ["ab ab zcdx.md"] 5 = [s] ∧ 1 < s.confidence := by
  have hws : wordScore "ab cd" "ab ab zcdx.md" = 5 / 4 := by
    have hne : ¬(pyWords (cleanName "ab cd").data = []) := by decide
    have hwm : countExactMatches (pyWords (cleanName "ab cd").data)
        (pyWords (cleanName "ab ab zcdx.md").data) = 2 := by decide
    have hhm : countHalfMatches (pyWords (cleanName "ab cd").data)
        (pyWords (cleanName "ab ab zcdx.md").data) = 1 := by decide
    have hlen : (pyWords (cleanName "ab cd").data).length = 2 := by decide
    simp only [wordScore, hwm, hhm, hlen]
    rw [if_neg hne]
    norm_num
  have hpb : patternBonus "ab cd" "ab ab zcdx.md" = 0 := by
    simp only [patternBonus]
    rw [if_neg (by decide)]
  have hfs : (5 / 4 : ℚ) ≤ finalScore "ab cd" "ab ab zcdx.md" := by
    rw [finalScore, hws, hpb, add_zero]
    exact le_max_right _ _
  have hincl : (0.25 : ℚ) < finalScore "ab cd" "ab ab zcdx.md" ∨
      0 < countExactMatches (pyWords (cleanName "ab cd").data)
        (pyWords (cleanName "ab ab zcdx.md").data) := Or.inr (by decide)
  have hsc : scoreNote "ab cd" "ab ab zcdx.md" =
      some ⟨"ab ab zcdx.md", finalScore "ab cd" "ab ab zcdx.md"⟩ := by
    simp only [scoreNote]
    rw [if_neg (by decide), if_neg (by decide), if_pos hincl]
  refine ⟨⟨"ab ab zcdx.md", finalScore "ab cd" "ab ab zcdx.md"⟩, ?_, ?_⟩
  · rw [fallbackSimpleMatching]
    simp [List.filterMap, hsc, sortByConfidence, insertDesc]
  · exact lt_of_lt_of_le (by norm_num) hfs

/-! ### Claim C1 — the learning loop of the resolution engine -/

/-- A term registered by `register_note_reference` afterwards resolves in the
memory store by exact normalised lookup. -/
theorem resolve_after_register (m : AgentMemory) (t p c ts : String) :
    resolveNoteReference (registerNoteReference m t p c ts) t = some p := by
  have hu : (registerNoteReference m t p c ts).user_aliases =
      dictInsert m.user_aliases (normalizeTerm t) p := rfl
  simp only [resolveNoteReference, hu, lookup_dictInsert_self]

/-- C1 (amended): the learning hook of `_resolve_note_with_fallback` fires on
the conversation-context step, not on disambiguation: whenever a call
resolves via the context (`fromContext p`), the pair `(name, p)` is
registered, and an immediately subsequent `resolve` of the same name over
the same vault returns `p` from memory — whatever the later context, reply
and timestamp.  (That the disambiguation step does **not** register the
confirmed candidate is the separately proved counterexample.) -/
theorem context_resolution_learns (m : AgentMemory) (ctx : ConversationContext)
    (vault : List String) (name : String) (reply : UserReply) (ts : String)
    (ctx' : ConversationContext) (reply' : UserReply) (ts' : String) (p : String)
    (h : (resolveNoteWithFallback m ctx vault name reply ts).1 =
      ResolveOutcome.fromContext p) :
    (resolveNoteWithFallback (resolveNoteWithFallback m ctx vault name reply ts).2
        ctx' vault name reply' ts').1 = ResolveOutcome.fromMemory p := by
  simp only [resolveNoteWithFallback] at h
  by_cases h1 : (pyTruthy (resolveNoteReference m name) &&
      vault.contains ((resolveNoteReference m name).getD "")) = true
  · rw [if_pos h1] at h
    exact absurd h (by simp)
  · rw [if_neg h1] at h
    by_cases h2 : (pyTruthy (contextResolveReference ctx m name) &&
        vault.contains ((contextResolveReference ctx m name).getD "")) = true
    · rw [if_pos h2] at h
      have h' : ResolveOutcome.fromContext ((contextResolveReference ctx m name).getD "") =
          ResolveOutcome.fromContext p := h
      injection h' with hp
      have hm2 : (resolveNoteWithFallback m ctx vault name reply ts).2 =
          registerNoteReference m name p "context resolution" ts := by
        simp only [resolveNoteWithFallback]
        rw [if_neg h1, if_pos h2, hp]
      have hand := h2
      rw [Bool.and_eq_true] at hand
      obtain ⟨ht2, hv2⟩ := hand
      rcases hcr : contextResolveReference ctx m name with _ | s
      · rw [hcr] at ht2
        simp [pyTruthy] at ht2
      · rw [hcr] at ht2 hv2 hp
        simp only [Option.getD_some] at hp hv2
        subst hp
        rw [hm2]
        simp only [resolveNoteWithFallback]
        rw [resolve_after_register]
        have hcond : (pyTruthy (some s) && vault.contains ((some s).getD "")) = true := by
          simp only [Option.getD_some]
          rw [Bool.and_eq_true]
          exact ⟨ht2, hv2⟩
        rw [if_pos hcond]
        simp
    · rw [if_neg h2] at h
      exfalso
      repeat' split at h
      all_goals simp at h

/-- Witness for C1: a pronoun resolved through the context focus is
registered, and the immediately following resolve of the same term comes
from memory. -/
theorem context_resolution_learns_witness :
    (resolveNoteWithFallback emptyMemory { emptyContext with current_focus := some "n.md" }
        ["n.md"] "it" UserReply.cancel "t1").1 = ResolveOutcome.fromContext "n.md" ∧
    (resolveNoteWithFallback (resolveNoteWithFallback emptyMemory
        { emptyContext with current_focus := some "n.md" }
        ["n.md"] "it" UserReply.cancel "t1").2
        emptyContext ["n.md"] "it" UserReply.cancel "t2").1 =
      ResolveOutcome.fromMemory "n.md" := by
  have h1 : (resolveNoteWithFallback emptyMemory
      { emptyContext with current_focus := some "n.md" }
      ["n.md"] "it" UserReply.cancel "t1").1 = ResolveOutcome.fromContext "n.md" := by decide
  exact ⟨h1, context_resolution_learns _ _ _ _ _ _ _ _ _ _ h1⟩

/-- C1 (counterexample): a term resolved through interactive disambiguation
is returned **without** being registered — the memory store is unchanged
(no alias is created), and an immediately subsequent `resolve` of the same
term does not return the confirmed candidate from memory; it ends in
disambiguation again. -/
theorem disambiguation_not_registered_counterexample :
    (resolveNoteWithFallback emptyMemory emptyContext ["ab c.md"] "ab"
        (UserReply.num 1 "") "t1").1 = ResolveOutcome.fromDisambiguation "ab c.md" ∧
    (resolveNoteWithFallback emptyMemory emptyContext ["ab c.md"] "ab"
        (UserReply.num 1 "") "t1").2 = emptyMemory ∧
    (resolveNoteWithFallback (resolveNoteWithFallback emptyMemory emptyContext ["ab c.md"]
        "ab" (UserReply.num 1 "") "t1").2 emptyContext ["ab c.md"] "ab"
        (UserReply.num 1 "") "t2").1 ≠ ResolveOutcome.fromMemory "ab c.md" := by decide

end Glyph
